import Mathlib

/-!
Verification of the quadratic handler of the minotaur repository
(src/src/base/QuadHandler.cpp) against its natural-language
specification.  Machine doubles are modelled by exact ordered-field
arithmetic (`ℚ` where the code is sqrt-free, `ℝ` where it takes square
roots); variables are identified by their index (`ℕ`), and the bound
store of a problem is a map from variable index to a pair
(lower bound, upper bound).
-/

namespace Minotaur

section Core

variable {α : Type} [LinearOrderedField α]

/-- Absolute feasibility tolerance `aTol_` of `QuadHandler` (1e-5). -/
def aTol : α := 1 / 100000

/-- Relative feasibility tolerance `rTol_` of `QuadHandler` (1e-4). -/
def rTol : α := 1 / 10000

/-- Modelled from the spec: `BoundsOnSquare` (its file `Operations.cpp` is not
under src/).  Section 4.1.3: tighten `y` with `[min(x^2), max(x^2)]` over
`x ∈ [l,u]`, i.e. the exact range of the square over the interval. -/
def BoundsOnSquare (l u : α) : α × α :=
  ((if l ≤ 0 ∧ 0 ≤ u then 0 else min (l * l) (u * u)), max (l * l) (u * u))

/-- Modelled from the spec: `BoundsOnProduct` (its file `Operations.cpp` is not
under src/).  Section 4.1.3: the box product `[min(ab), max(ab)]` over the
four corner products. -/
def BoundsOnProduct (l0 u0 l1 u1 : α) : α × α :=
  (min (min (l0 * l1) (l0 * u1)) (min (u0 * l1) (u0 * u1)),
   max (max (l0 * l1) (l0 * u1)) (max (u0 * l1) (u0 * u1)))

/-- Modelled from the spec: `BoundsOnDiv` (its file `Operations.cpp` is not
under src/).  Section 4.1.3: the standard interval quotient; when the
denominator interval crosses zero the quotient is unbounded and no finite
bounds are produced (`none`), so the subsequent bound update is a no-op. -/
def BoundsOnDiv (nl nu dl du : α) : Option (α × α) :=
  if dl ≤ 0 ∧ 0 ≤ du then none
  else some (min (min (nl / dl) (nl / du)) (min (nu / dl) (nu / du)),
             max (max (nl / dl) (nl / du)) (max (nu / dl) (nu / du)))

/-- The bound store: variable index to (lower bound, upper bound). -/
def BndSt (α : Type) : Type := ℕ → α × α

/-- Pointwise update of a bound store. -/
def updSt (s : BndSt α) (v : ℕ) (p : α × α) : BndSt α :=
  fun w => if w = v then p else s w

end Core

section Envelopes

/-- `QuadHandler::getNewBilLf_` (QuadHandler.cpp:433).  One McCormick
envelope row for `y = x0*x1`: coefficients of `x0`, `x1`, `y` and the
right-hand side of the canonical row `cx0*x0 + cx1*x1 + cy*y ≤ rhs`. -/
structure BilLF where
  cx0 : ℚ
  cx1 : ℚ
  cy : ℚ
  rhs : ℚ
deriving DecidableEq

/-- `QuadHandler::getNewBilLf_` (QuadHandler.cpp:433): builds envelope
`type` (0..3) for bounds `x0 ∈ [lb0, ub0]`, `x1 ∈ [lb1, ub1]`.  The source
performs no finiteness test on the bounds. -/
def getNewBilLf_ (lb0 ub0 lb1 ub1 : ℚ) (type : Fin 4) : BilLF :=
  match type with
  | 0 => ⟨lb1, lb0, -1, lb0 * lb1⟩
  | 1 => ⟨ub1, ub0, -1, ub0 * ub1⟩
  | 2 => ⟨-ub1, -lb0, 1, -lb0 * ub1⟩
  | 3 => ⟨-lb1, -ub0, 1, -ub0 * lb1⟩

/-- A point satisfies a McCormick row (the relaxation stores every row as
`f ≤ rhs`, cf. `rel->newConstraint(f, -INFINITY, rhs)`). -/
def bilSat (c : BilLF) (x0 x1 y : ℚ) : Prop :=
  c.cx0 * x0 + c.cx1 * x1 + c.cy * y ≤ c.rhs

/-- The bilinear part of `QuadHandler::relax_` (QuadHandler.cpp:793):
for one `LinBil` term it adds exactly the four rows `type = 0..3`. -/
def relaxBilCons (lb0 ub0 lb1 ub1 : ℚ) : List BilLF :=
  [getNewBilLf_ lb0 ub0 lb1 ub1 0, getNewBilLf_ lb0 ub0 lb1 ub1 1,
   getNewBilLf_ lb0 ub0 lb1 ub1 2, getNewBilLf_ lb0 ub0 lb1 ub1 3]

/-- `QuadHandler::getNewSqLf_` (QuadHandler.cpp:479).  The secant row for
`y = x^2`: coefficients of `y` and `x` and the right-hand side of
`cy*y + cx*x ≤ rhs`. -/
structure SqLF where
  cy : ℚ
  cx : ℚ
  rhs : ℚ
deriving DecidableEq

/-- `QuadHandler::getNewSqLf_` (QuadHandler.cpp:479).  The assert
`lb > -1e21 && ub < 1e21` (a bound beyond that threshold, in particular an
infinite one, fails it) is modelled by returning `none`.  When
`|ub + lb| ≤ aTol` the `x` term is dropped and only `y ≤ -ub*lb` is
produced. -/
def getNewSqLf_ (lb ub : ℚ) : Option SqLF :=
  if lb > -(10 ^ 21) ∧ ub < 10 ^ 21 then
    some (if |ub + lb| > aTol then ⟨1, -(ub + lb), -ub * lb⟩
          else ⟨1, 0, -ub * lb⟩)
  else none

/-- The secant row exactly as the spec states it: `y - (l+u)x ≤ -l*u`. -/
def specSecantLF (lb ub : ℚ) : SqLF := ⟨1, -(lb + ub), -lb * ub⟩

end Envelopes

/-- C5: for every LinBil(x0, x1, y) with operand boxes `[l0,u0] × [l1,u1]`,
the initial relaxation build adds exactly the four McCormick envelope rows,
in canonical `≤` form, each row equivalent to the stated inequality, and
each row holds with equality at its corner of the box
(`c0` at `(l0,l1)`, `c1` at `(u0,u1)`, `c2` at `(l0,u1)`, `c3` at `(u0,l1)`,
with `y` equal to the corner product). -/
theorem mccormick_envelopes_exact (l0 u0 l1 u1 : ℚ) :
    relaxBilCons l0 u0 l1 u1 =
      [⟨l1, l0, -1, l0 * l1⟩, ⟨u1, u0, -1, u0 * u1⟩,
       ⟨-u1, -l0, 1, -l0 * u1⟩, ⟨-l1, -u0, 1, -u0 * l1⟩] ∧
    (∀ x0 x1 y : ℚ, bilSat (getNewBilLf_ l0 u0 l1 u1 0) x0 x1 y ↔
      l1 * x0 + l0 * x1 - l0 * l1 ≤ y) ∧
    (∀ x0 x1 y : ℚ, bilSat (getNewBilLf_ l0 u0 l1 u1 1) x0 x1 y ↔
      u1 * x0 + u0 * x1 - u0 * u1 ≤ y) ∧
    (∀ x0 x1 y : ℚ, bilSat (getNewBilLf_ l0 u0 l1 u1 2) x0 x1 y ↔
      y ≤ u1 * x0 + l0 * x1 - l0 * u1) ∧
    (∀ x0 x1 y : ℚ, bilSat (getNewBilLf_ l0 u0 l1 u1 3) x0 x1 y ↔
      y ≤ l1 * x0 + u0 * x1 - u0 * l1) ∧
    ((getNewBilLf_ l0 u0 l1 u1 0).cx0 * l0 + (getNewBilLf_ l0 u0 l1 u1 0).cx1 * l1 +
      (getNewBilLf_ l0 u0 l1 u1 0).cy * (l0 * l1) = (getNewBilLf_ l0 u0 l1 u1 0).rhs) ∧
    ((getNewBilLf_ l0 u0 l1 u1 1).cx0 * u0 + (getNewBilLf_ l0 u0 l1 u1 1).cx1 * u1 +
      (getNewBilLf_ l0 u0 l1 u1 1).cy * (u0 * u1) = (getNewBilLf_ l0 u0 l1 u1 1).rhs) ∧
    ((getNewBilLf_ l0 u0 l1 u1 2).cx0 * l0 + (getNewBilLf_ l0 u0 l1 u1 2).cx1 * u1 +
      (getNewBilLf_ l0 u0 l1 u1 2).cy * (l0 * u1) = (getNewBilLf_ l0 u0 l1 u1 2).rhs) ∧
    ((getNewBilLf_ l0 u0 l1 u1 3).cx0 * u0 + (getNewBilLf_ l0 u0 l1 u1 3).cx1 * l1 +
      (getNewBilLf_ l0 u0 l1 u1 3).cy * (u0 * l1) = (getNewBilLf_ l0 u0 l1 u1 3).rhs) := by
  refine ⟨rfl, ?_, ?_, ?_, ?_, by simp [getNewBilLf_]; ring, by simp [getNewBilLf_]; ring,
    by simp [getNewBilLf_]; ring, by simp [getNewBilLf_]; ring⟩ <;>
    · intro x0 x1 y
      simp only [bilSat, getNewBilLf_]
      constructor <;> intro h <;> nlinarith [h]

/-- C6 counterexample: for `x ∈ [-1, 1 + 1e-6]` the sum of bounds is
`1e-6`, which is within `aTol` of zero, so the source drops the `x` term and
produces `y ≤ -ub*lb` instead of the secant `y - (l+u)x ≤ -l*u` the claim
states (whose `x` coefficient is `-1e-6 ≠ 0`). -/
theorem secant_drops_x_term :
    getNewSqLf_ (-1) (1 + 1 / 1000000) = some ⟨1, 0, 1 + 1 / 1000000⟩ ∧
    (⟨1, 0, 1 + 1 / 1000000⟩ : SqLF) ≠ specSecantLF (-1) (1 + 1 / 1000000) := by
  constructor
  · rw [getNewSqLf_, if_pos (by norm_num), if_neg (by rw [aTol]; norm_num [abs_le])]
    norm_num
  · rw [specSecantLF]
    intro h
    have := congrArg SqLF.cx h
    norm_num at this

/-- C6 amended: for each LinSqr(x, y) with `x ∈ [l,u]` (bounds within the
finiteness threshold of the assert), the initial relaxation build adds one
row: the secant `y - (l+u)x ≤ -l*u` when `|u + l| > aTol`, and the
degenerate bound `y ≤ -u*l` with the `x` term dropped when
`|u + l| ≤ aTol`.  The secant is the line through `(l, l^2)` and
`(u, u^2)` and upper-bounds the parabola on `[l, u]`. -/
theorem secant_construction (lb ub : ℚ) (hl : -(10 ^ 21) < lb) (hu : ub < 10 ^ 21) :
    (|ub + lb| > aTol → getNewSqLf_ lb ub = some (specSecantLF lb ub)) ∧
    (|ub + lb| ≤ aTol → getNewSqLf_ lb ub = some ⟨1, 0, -ub * lb⟩) ∧
    (specSecantLF lb ub).cy * (lb * lb) + (specSecantLF lb ub).cx * lb =
      (specSecantLF lb ub).rhs ∧
    (specSecantLF lb ub).cy * (ub * ub) + (specSecantLF lb ub).cx * ub =
      (specSecantLF lb ub).rhs ∧
    (∀ x : ℚ, lb ≤ x → x ≤ ub →
      (specSecantLF lb ub).cy * (x * x) + (specSecantLF lb ub).cx * x ≤
        (specSecantLF lb ub).rhs) := by
  refine ⟨fun h => ?_, fun h => ?_, by simp [specSecantLF]; ring, by simp [specSecantLF]; ring,
    fun x h1 h2 => ?_⟩
  · rw [getNewSqLf_, if_pos ⟨hl, hu⟩, if_pos h, specSecantLF]
    refine congrArg some ?_
    rw [SqLF.mk.injEq]
    exact ⟨rfl, by ring, by ring⟩
  · rw [getNewSqLf_, if_pos ⟨hl, hu⟩, if_neg (by simpa using h.not_lt)]
  · simp only [specSecantLF]
    nlinarith [mul_nonneg (sub_nonneg.2 h1) (sub_nonneg.2 h2)]

/-- C6 witness for `secant_construction` at `lb = -1`, `ub = 2`. -/
theorem secant_construction_witness :
    -(10 ^ 21) < (-1 : ℚ) ∧ (2 : ℚ) < 10 ^ 21 ∧
    getNewSqLf_ (-1) 2 = some (specSecantLF (-1) 2) := by
  refine ⟨by norm_num, by norm_num, ?_⟩
  exact (secant_construction (-1) 2 (by norm_num) (by norm_num)).1
    (by rw [aTol]; norm_num)

/-- C9 counterexample: `-2e21` fails the finiteness test of the assert in
`getNewSqLf_` (so the secant builder fails on it), yet `getNewBilLf_`
happily builds a McCormick row from the very same out-of-range lower bound:
the bilinear envelope builder performs no finiteness check at all. -/
theorem bil_envelope_no_finiteness_check :
    getNewSqLf_ (-(2 * 10 ^ 21)) 0 = none ∧
    getNewBilLf_ (-(2 * 10 ^ 21)) 0 0 1 0 = ⟨0, -(2 * 10 ^ 21), -1, 0⟩ := by
  constructor
  · rw [getNewSqLf_, if_neg]
    norm_num
  · rw [getNewBilLf_]
    norm_num

/-- C9 amended: the secant builder `getNewSqLf_` fails exactly when an
operand bound is outside the open interval `(-1e21, 1e21)` (its assert);
the McCormick builder `getNewBilLf_` has no finiteness check and succeeds
for every bound vector, producing the envelope row unconditionally
(shown here for row 0). -/
theorem envelope_finiteness (lb ub : ℚ) :
    ((getNewSqLf_ lb ub).isSome ↔ (lb > -(10 ^ 21) ∧ ub < 10 ^ 21)) ∧
    (∀ lb0 ub0 lb1 ub1 : ℚ, getNewBilLf_ lb0 ub0 lb1 ub1 0 = ⟨lb1, lb0, -1, lb0 * lb1⟩) := by
  constructor
  · by_cases hc : lb > -(10 ^ 21) ∧ ub < 10 ^ 21
    · rw [getNewSqLf_, if_pos hc]
      simpa using hc
    · rw [getNewSqLf_, if_neg hc]
      simp [hc]
  · intro lb0 ub0 lb1 ub1
    rfl

section Feasibility

/-- The square-term test of `QuadHandler::isFeasible` (QuadHandler.cpp:550):
the term at primal values `(xval, yval)` is flagged violated when the
relative violation (with the denominator padded by `1e-6`) exceeds `1e-4`
and the absolute violation exceeds `1e-5`. -/
def sqTermViolated (xval yval : ℚ) : Bool :=
  decide (|yval - xval * xval| / (|yval| + 1 / 1000000) > 1 / 10000 ∧
          |yval - xval * xval| > 1 / 100000)

/-- `LinBil::isViolated` (QuadHandler.cpp:1121): the bilinear term at
primal values `(x0val, x1val, yval)` is violated when the absolute
violation exceeds `aTol` and also exceeds `|yval| * rTol`. -/
def LinBil.isViolated (x0val x1val yval : ℚ) : Bool :=
  decide (|x1val * x0val - yval| > aTol ∧ |x1val * x0val - yval| > |yval| * rTol)

/-- `QuadHandler::isFeasible` (QuadHandler.cpp:541): every square term is
checked first, then every bilinear term; the first violated term makes the
whole test false (`List.all` short-circuits exactly like the early
`return false`).  A square term is the pair `(x value, y value)`, a
bilinear term the triple `(x0 value, x1 value, y value)` at the primal. -/
def isFeasible (sqs : List (ℚ × ℚ)) (bils : List (ℚ × ℚ × ℚ)) : Bool :=
  (sqs.all fun t => ! sqTermViolated t.1 t.2) &&
  (bils.all fun t => ! LinBil.isViolated t.1 t.2.1 t.2.2)

/-- The acceptance test exactly as the claim states it:
`|y - v| ≤ max(aTol, rTol * |y|)` where `v` is the value of the quadratic
operand at the primal. -/
def claimTermPass (yval v : ℚ) : Prop :=
  |yval - v| ≤ max aTol (rTol * |yval|)

end Feasibility

/-- The square-term test accepts exactly when the absolute violation is
within `aTol` or within `rTol` times the padded magnitude of `y`. -/
lemma sqTermViolated_eq_false_iff (x y : ℚ) :
    sqTermViolated x y = false ↔
      |y - x * x| ≤ aTol ∨ |y - x * x| ≤ rTol * (|y| + 1 / 1000000) := by
  have hd : (0 : ℚ) < |y| + 1 / 1000000 := by positivity
  rw [sqTermViolated, decide_eq_false_iff_not, aTol, rTol, not_and_or, not_lt, not_lt,
    div_le_iff₀ hd]
  tauto

/-- The bilinear test accepts exactly the tolerance test of the claim. -/
lemma bil_isViolated_eq_false_iff (x0 x1 y : ℚ) :
    LinBil.isViolated x0 x1 y = false ↔ |y - x0 * x1| ≤ max aTol (rTol * |y|) := by
  have e : |x1 * x0 - y| = |y - x0 * x1| := by rw [mul_comm, abs_sub_comm]
  rw [LinBil.isViolated, decide_eq_false_iff_not, not_and_or, not_lt, not_lt, e,
    le_max_iff, mul_comm |y| rTol]

/-- C4 counterexample: a single square term with `x* = 1` and
`y* = 1 - d` where `d = (1e-4 + 1e-10)/(1 + 1e-4)`.  The code accepts the
solution (its relative test divides by `|y*| + 1e-6`, so the threshold is
`1e-4 * (|y*| + 1e-6)`), but the tolerance test of the claim,
`|y* - x*^2| ≤ max(1e-5, 1e-4 * |y*|)`, fails there. -/
theorem isFeasible_relative_test_counterexample :
    isFeasible [(1, 1 - 1000001 / 10001000000)] [] = true ∧
    ¬ claimTermPass (1 - 1000001 / 10001000000) (1 * 1) := by
  have e1 : |(1 - 1000001 / 10001000000 : ℚ) - 1 * 1| = 1000001 / 10001000000 := by
    rw [show (1 - 1000001 / 10001000000 : ℚ) - 1 * 1 = -(1000001 / 10001000000) by ring,
      abs_neg, abs_of_pos (by norm_num : (0 : ℚ) < 1000001 / 10001000000)]
  have e2 : |(1 - 1000001 / 10001000000 : ℚ)| = 9999999999 / 10001000000 := by
    rw [show (1 - 1000001 / 10001000000 : ℚ) = 9999999999 / 10001000000 by norm_num,
      abs_of_pos (by norm_num : (0 : ℚ) < 9999999999 / 10001000000)]
  constructor
  · have hv : sqTermViolated 1 (1 - 1000001 / 10001000000) = false := by
      rw [sqTermViolated_eq_false_iff]
      right
      rw [e1, e2, rTol]
      norm_num
    simp [isFeasible, hv]
  · rw [claimTermPass, aTol, rTol, not_le, e1, e2, max_lt_iff]
    constructor <;> norm_num

/-- C4 amended: `isFeasible` accepts a primal solution iff every quadratic
term passes its tolerance test, where a bilinear term passes iff
`|y* - x0*x1*| ≤ max(aTol, rTol * |y*|)` exactly as the claim states, but a
square term passes iff `|y* - x*^2| ≤ aTol` or
`|y* - x*^2| ≤ rTol * (|y*| + 1e-6)` — the relative test pads the
denominator by `1e-6` (with `aTol = 1e-5`, `rTol = 1e-4`); the first
failing term aborts the scan. -/
theorem isFeasible_characterization (sqs : List (ℚ × ℚ)) (bils : List (ℚ × ℚ × ℚ)) :
    isFeasible sqs bils = true ↔
      ((∀ t ∈ sqs, |t.2 - t.1 * t.1| ≤ aTol ∨
          |t.2 - t.1 * t.1| ≤ rTol * (|t.2| + 1 / 1000000)) ∧
       (∀ t ∈ bils, |t.2.2 - t.1 * t.2.1| ≤ max aTol (rTol * |t.2.2|))) := by
  rw [isFeasible, Bool.and_eq_true, List.all_eq_true, List.all_eq_true]
  constructor
  · rintro ⟨h1, h2⟩
    refine ⟨fun t ht => ?_, fun t ht => ?_⟩
    · exact (sqTermViolated_eq_false_iff t.1 t.2).1 (by simpa using h1 t ht)
    · exact (bil_isViolated_eq_false_iff t.1 t.2.1 t.2.2).1 (by simpa using h2 t ht)
  · rintro ⟨h1, h2⟩
    refine ⟨fun t ht => ?_, fun t ht => ?_⟩
    · simpa using (sqTermViolated_eq_false_iff t.1 t.2).2 (h1 t ht)
    · simpa using (bil_isViolated_eq_false_iff t.1 t.2.1 t.2.2).2 (h2 t ht)

section Propagation

variable {α : Type} [LinearOrderedField α]

/-- `QuadHandler::updatePBounds_` for presolve (QuadHandler.cpp:870):
`none` models the return value `-1` (empty intersection beyond `aTol`);
otherwise the upper bound is lowered when it improves by more than `aTol`
and then the lower bound is raised when it improves by more than `aTol`,
setting the change flag for either. -/
def updatePBounds_ (s : BndSt α) (v : ℕ) (lb ub : α) (changed : Bool) :
    Option (BndSt α × Bool) :=
  if ub < (s v).1 - aTol ∨ lb > (s v).2 + aTol then none
  else
    let p1 := if ub < (s v).2 - aTol then (updSt s v ((s v).1, ub), true) else (s, changed)
    if lb > (p1.1 v).1 + aTol then some (updSt p1.1 v (lb, (p1.1 v).2), true) else some p1

/-- `QuadHandler::propBilBnds_` for presolve (QuadHandler.cpp:673) on the
term `y = x0 * x1`.  Forward: `y` is tightened with the product box.
Backward: the source divides by the degenerate intervals
`[x0.lb, x0.lb]` (to tighten `x1`) and `[x1.lb, x1.lb]` (to tighten `x0`),
passing the lower bound twice where the claim expects `[lb, ub]`. -/
def propBilBnds_ (x0 x1 y : ℕ) (s : BndSt α) (changed : Bool) :
    Option (BndSt α × Bool) :=
  let f := BoundsOnProduct (s x0).1 (s x0).2 (s x1).1 (s x1).2
  match updatePBounds_ s y f.1 f.2 changed with
  | none => none
  | some (s1, c1) =>
    match (match BoundsOnDiv (s1 y).1 (s1 y).2 (s1 x0).1 (s1 x0).1 with
           | none => some (s1, c1)
           | some d => updatePBounds_ s1 x1 d.1 d.2 c1) with
    | none => none
    | some (s2, c2) =>
      match BoundsOnDiv (s2 y).1 (s2 y).2 (s2 x1).1 (s2 x1).1 with
      | none => some (s2, c2)
      | some d => updatePBounds_ s2 x0 d.1 d.2 c2

/-- The backward rule exactly as the claim states it: `x1` is tightened by
`[y.lb, y.ub] / [x0.lb, x0.ub]` and `x0` by `[y.lb, y.ub] / [x1.lb, x1.ub]`
(standard interval quotient), with the same forward step and the same
update primitive as the source. -/
def propBilBndsSpec (x0 x1 y : ℕ) (s : BndSt α) (changed : Bool) :
    Option (BndSt α × Bool) :=
  let f := BoundsOnProduct (s x0).1 (s x0).2 (s x1).1 (s x1).2
  match updatePBounds_ s y f.1 f.2 changed with
  | none => none
  | some (s1, c1) =>
    match (match BoundsOnDiv (s1 y).1 (s1 y).2 (s1 x0).1 (s1 x0).2 with
           | none => some (s1, c1)
           | some d => updatePBounds_ s1 x1 d.1 d.2 c1) with
    | none => none
    | some (s2, c2) =>
      match BoundsOnDiv (s2 y).1 (s2 y).2 (s2 x1).1 (s2 x1).2 with
      | none => some (s2, c2)
      | some d => updatePBounds_ s2 x0 d.1 d.2 c2

/-- Bound state of the C2 failing input: `x0 ∈ [1,2]` (index 0),
`x1 ∈ [-100,100]` (index 1), `y ∈ [4,4]` (index 2). -/
def exBilSt : BndSt ℚ :=
  fun v => if v = 0 then (1, 2) else if v = 1 then (-100, 100) else (4, 4)

end Propagation

/-- C2: on the failing input `x0 ∈ [1,2]`, `x1 ∈ [-100,100]`, `y ∈ [4,4]`
the source tightens `x1` with `y / [x0.lb, x0.lb] = [4,4]` and then `x0`
with `y / [x1.lb, x1.lb] = [1,1]`, cutting the upper half of the `x0`
interval, while the quotient rule of the claim gives `x1 ∈ [2,4]` and
leaves `x0 ∈ [1,2]` untouched; the point `(x0,x1,y) = (2,2,4)` satisfies
`y = x0*x1` inside the input box yet is cut off by the source. -/
theorem propBilBnds_degenerate_divisor :
    (∃ s' : BndSt ℚ, propBilBnds_ 0 1 2 exBilSt false = some (s', true) ∧
      s' 0 = (1, 1) ∧ s' 1 = (4, 4)) ∧
    (∃ t' : BndSt ℚ, propBilBndsSpec 0 1 2 exBilSt false = some (t', true) ∧
      t' 0 = (1, 2) ∧ t' 1 = (2, 4)) ∧
    ((2 : ℚ) * 2 = 4 ∧ (exBilSt 0).1 ≤ 2 ∧ 2 ≤ (exBilSt 0).2 ∧
      (exBilSt 1).1 ≤ 2 ∧ 2 ≤ (exBilSt 1).2) := by
  have hc : propBilBnds_ 0 1 2 exBilSt false =
      some (updSt (updSt (updSt exBilSt 1 (-100, 4)) 1 (4, 4)) 0 (1, 1), true) := by
    norm_num [propBilBnds_, updatePBounds_, BoundsOnProduct, BoundsOnDiv, exBilSt, updSt, aTol]
  have hs : propBilBndsSpec 0 1 2 exBilSt false =
      some (updSt (updSt exBilSt 1 (-100, 4)) 1 (2, 4), true) := by
    norm_num [propBilBndsSpec, updatePBounds_, BoundsOnProduct, BoundsOnDiv, exBilSt, updSt, aTol]
  refine ⟨⟨_, hc, by norm_num [updSt, exBilSt], by norm_num [updSt, exBilSt]⟩,
    ⟨_, hs, by norm_num [updSt, exBilSt], by norm_num [updSt, exBilSt]⟩,
    by norm_num [exBilSt]⟩

section Branching

/-- Which side of a variable bound a modification touches. -/
inductive Side where
  | lower : Side
  | upper : Side
deriving DecidableEq

/-- A single-sided variable bound modification (`VarBoundMod`). -/
structure VBMod where
  v : ℕ
  side : Side
  val : ℚ
deriving DecidableEq

/-- The two mod lists of one `Branch`: `addPMod` targets the original
problem, `addRMod` the relaxation. -/
structure BranchMods where
  pMods : List VBMod
  rMods : List VBMod
deriving DecidableEq

/-- `QuadHandler::getBranches` (QuadHandler.cpp:175): branching on
relaxation variable `v` (with original counterpart `origOf v`) at `value`.
The assert `value > lb + 1e-8 && value < ub - 1e-8` is modelled with
`none`; `modProb_` and `modRel_` are both true (the constructor sets
them).  The down branch records the upper-bound mod `value` on both
problems, the up branch the lower-bound mod `value`. -/
def getBranches (origOf : ℕ → ℕ) (v : ℕ) (value lb ub : ℚ) :
    Option (List BranchMods) :=
  if value > lb + 1 / 100000000 ∧ value < ub - 1 / 100000000 then
    some [⟨[⟨origOf v, Side.upper, value⟩], [⟨v, Side.upper, value⟩]⟩,
          ⟨[⟨origOf v, Side.lower, value⟩], [⟨v, Side.lower, value⟩]⟩]
  else none

/-- One item of the `LinMods` list built by `getBrMod`: a two-sided bound
modification (`VarBoundMod2`) or a single-sided one (`VarBoundMod`). -/
inductive LinModItem where
  | b2 (v : ℕ) (lb ub : ℚ) : LinModItem
  | b1 (v : ℕ) (side : Side) (val : ℚ) : LinModItem
deriving DecidableEq

/-- The return value of `getBrMod`: either the `SecantMod` of the `LinSqr`
path — which the source builds from a `LinearFunctionPtr` that is never
initialised (the `getNewSecantLf_` call at QuadHandler.cpp:377 is commented
out), so its payload is undefined and is modelled opaquely — or the
`LinMods` list of the bilinear path. -/
inductive BrModOut where
  | secantMod : BrModOut
  | lin (mods : List LinModItem) : BrModOut
deriving DecidableEq

/-- `LinBil::getOtherX` (QuadHandler.cpp:1132) on a term `(a, b, y)`. -/
def getOtherX (t : ℕ × ℕ × ℕ) (x : ℕ) : Option (ℕ × ℕ) :=
  if t.1 = x then some (t.2.1, t.2.2)
  else if t.2.1 = x then some (t.1, t.2.2)
  else none

/-- `QuadHandler::getBrMod` (QuadHandler.cpp:341) for candidate `x0` at
solution value `xval` with direction `dir`.  `sqVars` are the keys of
`x2Funs_`, `bils` the terms of `x0x1Funs_`, `bnd` the current bounds.  For
each bilinear term containing `x0` the source allocates a fresh `LinMods`
(discarding the previous one!) and inserts the `y` bound from the product
box; the single-sided bound on `x0` itself is inserted after the loop,
i.e. it comes last. -/
def getBrMod (sqVars : List ℕ) (bils : List (ℕ × ℕ × ℕ)) (bnd : BndSt ℚ)
    (x0 : ℕ) (xval : ℚ) (dir : Side) : BrModOut :=
  let q : ℚ × ℚ × ℚ × Side :=
    match dir with
    | Side.upper => ((bnd x0).1, xval, xval, Side.upper)
    | Side.lower => (xval, (bnd x0).2, xval, Side.lower)
  if x0 ∈ sqVars then BrModOut.secantMod
  else
    let lmods := bils.foldl
      (fun acc t =>
        match getOtherX t x0 with
        | none => acc
        | some p =>
          let b := BoundsOnProduct q.1 q.2.1 (bnd p.1).1 (bnd p.1).2
          [LinModItem.b2 p.2 b.1 b.2])
      ([] : List LinModItem)
    BrModOut.lin (lmods ++ [LinModItem.b1 x0 q.2.2.2 q.2.2.1])

/-- Bounds used in the C8 counterexample: every variable in `[0, 1]`. -/
def exBrBnd : BndSt ℚ := fun _ => (0, 1)

end Branching

/-- C8 counterexample: branching down on `x0` (index 0) at `1/2` with one
bilinear term `(0, 1, 2)`, the `LinMods` list built by `getBrMod` is
`[y-bound update, x0 bound]` — the consequential bound on the auxiliary
`y` comes first and the primary-variable bound comes last, not first as
the claim states. -/
theorem getBrMod_primary_bound_last :
    getBrMod [] [(0, 1, 2)] exBrBnd 0 (1 / 2) Side.upper =
      BrModOut.lin [LinModItem.b2 2 0 (1 / 2), LinModItem.b1 0 Side.upper (1 / 2)] ∧
    [LinModItem.b2 2 0 (1 / 2), LinModItem.b1 0 Side.upper (1 / 2)].head? ≠
      some (LinModItem.b1 0 Side.upper (1 / 2)) := by
  constructor
  · norm_num [getBrMod, getOtherX, BoundsOnProduct, exBrBnd]
  · simp

/-- C8 amended: `getBranches` records the single-sided bound change on `x`
(`[l, v]` down, `[v, u]` up) on both the original problem and the
relaxation, one mod each; but `getBrMod` packages the consequential
auxiliary-bound update first and the primary-variable bound last (no
envelope replacements are produced at all — that code is commented out),
shown for a single bilinear term in both directions. -/
theorem branch_mods_order (origOf : ℕ → ℕ) (v : ℕ) (value lb ub : ℚ)
    (h : value > lb + 1 / 100000000 ∧ value < ub - 1 / 100000000) :
    getBranches origOf v value lb ub =
      some [⟨[⟨origOf v, Side.upper, value⟩], [⟨v, Side.upper, value⟩]⟩,
            ⟨[⟨origOf v, Side.lower, value⟩], [⟨v, Side.lower, value⟩]⟩] ∧
    (∀ (bnd : BndSt ℚ) (x0 x1 y : ℕ) (xval : ℚ),
      getBrMod [] [(x0, x1, y)] bnd x0 xval Side.upper =
        BrModOut.lin
          [LinModItem.b2 y (BoundsOnProduct (bnd x0).1 xval (bnd x1).1 (bnd x1).2).1
            (BoundsOnProduct (bnd x0).1 xval (bnd x1).1 (bnd x1).2).2,
           LinModItem.b1 x0 Side.upper xval] ∧
      getBrMod [] [(x0, x1, y)] bnd x0 xval Side.lower =
        BrModOut.lin
          [LinModItem.b2 y (BoundsOnProduct xval (bnd x0).2 (bnd x1).1 (bnd x1).2).1
            (BoundsOnProduct xval (bnd x0).2 (bnd x1).1 (bnd x1).2).2,
           LinModItem.b1 x0 Side.lower xval]) := by
  refine ⟨by rw [getBranches, if_pos h], fun bnd x0 x1 y xval => ⟨?_, ?_⟩⟩ <;>
    simp [getBrMod, getOtherX]

/-- C8 witness for `branch_mods_order` at `v = 0`, `value = 1/2`,
`lb = 0`, `ub = 1`. -/
theorem branch_mods_order_witness :
    ((1 : ℚ) / 2 > 0 + 1 / 100000000 ∧ (1 : ℚ) / 2 < 1 - 1 / 100000000) ∧
    getBranches id 0 (1 / 2) 0 1 =
      some [⟨[⟨0, Side.upper, 1 / 2⟩], [⟨0, Side.upper, 1 / 2⟩]⟩,
            ⟨[⟨0, Side.lower, 1 / 2⟩], [⟨0, Side.lower, 1 / 2⟩]⟩] := by
  have h : (1 : ℚ) / 2 > 0 + 1 / 100000000 ∧ (1 : ℚ) / 2 < 1 - 1 / 100000000 := by
    norm_num
  exact ⟨h, (branch_mods_order id 0 (1 / 2) 0 1 h).1⟩

section NodePresolve

variable {α : Type} [LinearOrderedField α]

/-- `QuadHandler::updatePBounds_` for node presolve (QuadHandler.cpp:890):
`none` models the return value `-1`.  Note the third branch (upper bound
only): the source does not set `*changed = true` there, so the flag is
passed through unchanged.  The bound mods applied to `p_` and to the
relaxation carry the same values, so a single bound store models both. -/
def updatePBoundsR_ (s : BndSt α) (v : ℕ) (lb ub : α) (changed : Bool) :
    Option (BndSt α × Bool) :=
  if lb > (s v).2 + aTol ∨ ub < (s v).1 - aTol then none
  else if lb > (s v).1 + aTol ∧ ub < (s v).2 - aTol then some (updSt s v (lb, ub), true)
  else if lb > (s v).1 + aTol then some (updSt s v (lb, (s v).2), true)
  else if ub < (s v).2 - aTol then some (updSt s v ((s v).1, ub), changed)
  else some (s, changed)

/-- `QuadHandler::propBilBnds_` for node presolve (QuadHandler.cpp:639).
In this overload *both* backward steps divide by the degenerate interval
`[x0.lb, x0.lb]` (QuadHandler.cpp:660 and 665). -/
def propBilBndsR_ (x0 x1 y : ℕ) (s : BndSt α) (changed : Bool) :
    Option (BndSt α × Bool) :=
  match updatePBoundsR_ s y (BoundsOnProduct (s x0).1 (s x0).2 (s x1).1 (s x1).2).1
      (BoundsOnProduct (s x0).1 (s x0).2 (s x1).1 (s x1).2).2 changed with
  | none => none
  | some (s1, c1) =>
    match (match BoundsOnDiv (s1 y).1 (s1 y).2 (s1 x0).1 (s1 x0).1 with
           | none => some (s1, c1)
           | some d => updatePBoundsR_ s1 x1 d.1 d.2 c1) with
    | none => none
    | some (s2, c2) =>
      match BoundsOnDiv (s2 y).1 (s2 y).2 (s2 x0).1 (s2 x0).1 with
      | none => some (s2, c2)
      | some d => updatePBoundsR_ s2 x0 d.1 d.2 c2

end NodePresolve

noncomputable section RealPart

/-- `QuadHandler::propSqrBnds_` for node presolve (QuadHandler.cpp:733) on
the term `y = x^2`.  Forward: `y` is tightened with the square box.
Backward: when the current upper bound of `y` exceeds `aTol`, `x` is
tightened to `[-sqrt(y.ub), sqrt(y.ub)]` (lower bound raised to
`sqrt(y.lb)` when `x.lb > -sqrt(y.lb) + aTol`); otherwise the source tests
`x->getUb() < -aTol_` (QuadHandler.cpp:762) and reports infeasibility,
else collapses `x` to `[0, 0]`. -/
def propSqrBndsR_ (x y : ℕ) (s : BndSt ℝ) (changed : Bool) :
    Option (BndSt ℝ × Bool) :=
  match updatePBoundsR_ s y (BoundsOnSquare (s x).1 (s x).2).1
      (BoundsOnSquare (s x).1 (s x).2).2 changed with
  | none => none
  | some (s1, c1) =>
    if (s1 y).2 > aTol then
      updatePBoundsR_ s1 x
        (if (s1 x).1 > -Real.sqrt ((s1 y).1) + aTol then Real.sqrt ((s1 y).1)
         else -Real.sqrt ((s1 y).2))
        (Real.sqrt ((s1 y).2)) c1
    else if (s1 x).2 < -aTol then none
    else updatePBoundsR_ s1 x 0 0 c1

/-- The backward step exactly as the claim states it: three cases on the
current upper bound of `y` — positive beyond `aTol` tightens `x` by the
square root rule, below `-aTol` reports infeasibility, within `aTol` of
zero collapses `x` to `[0, 0]`.  The forward step and the update
primitive are those of the source. -/
def propSqrBndsSpec (x y : ℕ) (s : BndSt ℝ) (changed : Bool) :
    Option (BndSt ℝ × Bool) :=
  match updatePBoundsR_ s y (BoundsOnSquare (s x).1 (s x).2).1
      (BoundsOnSquare (s x).1 (s x).2).2 changed with
  | none => none
  | some (s1, c1) =>
    if (s1 y).2 > aTol then
      updatePBoundsR_ s1 x
        (if (s1 x).1 > -Real.sqrt ((s1 y).1) + aTol then Real.sqrt ((s1 y).1)
         else -Real.sqrt ((s1 y).2))
        (Real.sqrt ((s1 y).2)) c1
    else if (s1 y).2 < -aTol then none
    else updatePBoundsR_ s1 x 0 0 c1

/-- One pass of the propagation loop of `QuadHandler::presolveNode`
(QuadHandler.cpp:603): all LinSqr terms, then all LinBil terms, threading
the `lchanged` flag (the source keeps the sticky outer flag `changed` in
step with the final value of `lchanged`, since `lchanged` is never reset
within a pass); `none` models the early `return true`. -/
def sweepBnds (sqs : List (ℕ × ℕ)) (bils : List (ℕ × ℕ × ℕ)) (s : BndSt ℝ)
    (lchanged : Bool) : Option (BndSt ℝ × Bool) :=
  match sqs.foldlM (fun (p : BndSt ℝ × Bool) t => propSqrBndsR_ t.1 t.2 p.1 p.2)
      (s, lchanged) with
  | none => none
  | some r => bils.foldlM (fun p t => propBilBndsR_ t.1 t.2.1 t.2.2 p.1 p.2) r

/-- The `while (true==changed)` loop of `QuadHandler::presolveNode`
(QuadHandler.cpp:595-623).  The loop body runs only while `changed` is
true; `changed` is never reset inside the loop, so once entered the
recursion keeps `changed = true` (fuel exhaustion, `none` at fuel 0,
models the resulting nontermination; it is unreachable from
`presolveNodeBnds` because the source initialises `changed = false`). -/
def presolveLoop (sqs : List (ℕ × ℕ)) (bils : List (ℕ × ℕ × ℕ)) :
    ℕ → BndSt ℝ → Bool → Option (BndSt ℝ)
  | _, s, false => some s
  | 0, _, true => none
  | Nat.succ n, s, true =>
    match sweepBnds sqs bils s false with
    | none => none
    | some (s1, _) => presolveLoop sqs bils n s1 true

/-- The bound-propagation phase of `QuadHandler::presolveNode`
(QuadHandler.cpp:595): `bool changed = false;` ... `while (true==changed)`. -/
def presolveNodeBnds (fuel : ℕ) (sqs : List (ℕ × ℕ)) (bils : List (ℕ × ℕ × ℕ))
    (s : BndSt ℝ) : Option (BndSt ℝ) :=
  presolveLoop sqs bils fuel s false

/-- Bound state of the C1 demonstration: one term `y = x^2` with
`x ∈ [1, 2]` (index 0) and `y ∈ [0, 100]` (index 1). -/
def exSqSt : BndSt ℝ :=
  fun v => if v = 0 then (1, 2) else if v = 1 then (0, 100) else (0, 0)

end RealPart

/-- `aTol` is positive. -/
lemma aTol_pos {α : Type} [LinearOrderedField α] : (0 : α) < aTol := by
  rw [aTol]
  positivity

/-- Both components of the square box are nonnegative. -/
lemma BoundsOnSquare_nonneg {α : Type} [LinearOrderedField α] (l u : α) :
    0 ≤ (BoundsOnSquare l u).1 ∧ 0 ≤ (BoundsOnSquare l u).2 := by
  rw [BoundsOnSquare]
  constructor
  · dsimp only
    split
    · exact le_refl 0
    · exact le_min (mul_self_nonneg l) (mul_self_nonneg u)
  · exact le_trans (mul_self_nonneg l) (le_max_left _ _)

/-- After a successful `updatePBoundsR_` with a nonnegative proposed box,
the upper bound of the updated variable is at least `-aTol`. -/
lemma updatePBoundsR_ub_ge {α : Type} [LinearOrderedField α] {s : BndSt α}
    {v : ℕ} {lb ub : α} {c : Bool} {r : BndSt α × Bool}
    (h : updatePBoundsR_ s v lb ub c = some r) (hlb : 0 ≤ lb) (hub : 0 ≤ ub) :
    -aTol ≤ (r.1 v).2 := by
  rw [updatePBoundsR_] at h
  split_ifs at h with h1 h2 h3 h4 <;>
      (rw [Option.some.injEq] at h; subst h; push_neg at h1; simp [updSt]) <;>
    linarith [aTol_pos (α := α), hub, hlb, h1.1]

/-- C3: during node presolve the backward propagation of a LinSqr behaves
exactly as the three-case rule of the claim: `propSqrBndsR_` (whose middle
branch textually tests `x->getUb()`) computes the same result as
`propSqrBndsSpec` (three cases on the upper bound of `y`) on every state —
after the forward step the upper bound of `y` is never below `-aTol`, so
the negative case is equivalent to the empty-interval failure of the
collapse to `[0, 0]`. -/
theorem propSqrBnds_three_cases (x y : ℕ) (s : BndSt ℝ) (c : Bool) :
    propSqrBndsR_ x y s c = propSqrBndsSpec x y s c := by
  rw [propSqrBndsR_, propSqrBndsSpec]
  cases h : updatePBoundsR_ s y (BoundsOnSquare (s x).1 (s x).2).1
      (BoundsOnSquare (s x).1 (s x).2).2 c with
  | none => rfl
  | some r =>
    obtain ⟨s1, c1⟩ := r
    dsimp only
    have hub : -aTol ≤ (s1 y).2 :=
      updatePBoundsR_ub_ge h (BoundsOnSquare_nonneg (s x).1 (s x).2).1
        (BoundsOnSquare_nonneg (s x).1 (s x).2).2
    by_cases hy : (s1 y).2 > aTol
    · rw [if_pos hy, if_pos hy]
    · rw [if_neg hy, if_neg hy, if_neg (not_lt.2 hub)]
      by_cases hx : (s1 x).2 < -aTol
      · rw [if_pos hx, updatePBoundsR_, if_pos (Or.inl (by linarith [aTol_pos (α := ℝ)]))]
      · rw [if_neg hx]

/-- C1: the propagation loop of `presolveNode` is dead code — `changed`
is initialised to `false` and the loop condition is `true==changed`, so
no propagation pass ever runs and the bounds are returned untouched for
every problem and every state; yet a single pass is not a no-op in
general: on `x ∈ [1,2]`, `y ∈ [0,100]` one sweep tightens `y` to `[1,4]`
and reports a change, so the state returned by `presolveNode` is not a
fixed point of the sweep. -/
theorem presolveNode_propagates_nothing :
    (∀ (fuel : ℕ) (sqs : List (ℕ × ℕ)) (bils : List (ℕ × ℕ × ℕ)) (s : BndSt ℝ),
      presolveNodeBnds fuel sqs bils s = some s) ∧
    (∃ s', sweepBnds [(0, 1)] [] exSqSt false = some (s', true) ∧
      s' 1 = (1, 4) ∧ exSqSt 1 = (0, 100)) := by
  constructor
  · intro fuel sqs bils s
    rw [presolveNodeBnds]
    cases fuel <;> rfl
  · have h1 : Real.sqrt 1 = 1 := Real.sqrt_one
    have h4 : Real.sqrt 4 = 2 := by
      rw [show (4 : ℝ) = 2 ^ 2 by norm_num, Real.sqrt_sq (by norm_num : (0 : ℝ) ≤ 2)]
    refine ⟨updSt exSqSt 1 (1, 4), ?_, by norm_num [updSt], by norm_num [exSqSt]⟩
    rw [sweepBnds]
    norm_num [List.foldlM, propSqrBndsR_, BoundsOnSquare, updatePBoundsR_, exSqSt, updSt,
      aTol, h1, h4, min_def, max_def]

noncomputable section Separation

/-- The golden ratio constant `alfa` of `QuadHandler::findLinPt_`
(QuadHandler.cpp:140). -/
def alfa : ℝ := 0.618

/-- The bracket tolerance `errlim` of `QuadHandler::findLinPt_`
(QuadHandler.cpp:141). -/
def errlim : ℝ := 1 / 10000

/-- The objective minimised by the golden-section search:
`(t - xval)^2 + (t^2 - yval)^2` (distance measure to `(xval, yval)` along
the parabola). -/
def gsObj (xval yval t : ℝ) : ℝ :=
  (t - xval) * (t - xval) + (t * t - yval) * (t * t - yval)

/-- The `while ((b-a) > errlim)` loop of `QuadHandler::findLinPt_`
(QuadHandler.cpp:155), with explicit fuel for the bracket-shrinking
recursion (each iteration multiplies the bracket width by `alfa`); the
loop state is `(a, b, mu, la, mu_val, la_val)` and the result is the
final `la`. -/
def gsLoop (xval yval : ℝ) : ℕ → ℝ → ℝ → ℝ → ℝ → ℝ → ℝ → ℝ
  | 0, _, _, _, la, _, _ => la
  | Nat.succ n, a, b, mu, la, mu_val, la_val =>
    if b - a > errlim then
      if mu_val < la_val then
        gsLoop xval yval n la b (la + alfa * (b - la)) mu
          (gsObj xval yval (la + alfa * (b - la))) mu_val
      else
        gsLoop xval yval n a mu la (mu - alfa * (mu - a)) la_val
          (gsObj xval yval (mu - alfa * (mu - a)))
    else la

/-- The initial bracket and first probes of `QuadHandler::findLinPt_`
(QuadHandler.cpp:143): `[sqrt(yval), xval]` when `xval > 0`, else
`[xval, -sqrt(yval)]`; `mu = a + alfa*(b-a)`, `la = b - alfa*(b-a)`. -/
def gsRun (fuel : ℕ) (xval yval : ℝ) : ℝ :=
  if xval > 0 then
    gsLoop xval yval fuel (Real.sqrt yval) xval
      (Real.sqrt yval + alfa * (xval - Real.sqrt yval))
      (xval - alfa * (xval - Real.sqrt yval))
      (gsObj xval yval (Real.sqrt yval + alfa * (xval - Real.sqrt yval)))
      (gsObj xval yval (xval - alfa * (xval - Real.sqrt yval)))
  else
    gsLoop xval yval fuel xval (-Real.sqrt yval)
      (xval + alfa * (-Real.sqrt yval - xval))
      (-Real.sqrt yval - alfa * (-Real.sqrt yval - xval))
      (gsObj xval yval (xval + alfa * (-Real.sqrt yval - xval)))
      (gsObj xval yval (-Real.sqrt yval - alfa * (-Real.sqrt yval - xval)))

/-- `QuadHandler::findLinPt_` (QuadHandler.cpp:123): returns the parabola
point `(xl, yl)` with `xl` the final `la` of the search and `yl = xl*xl`. -/
def findLinPt_ (fuel : ℕ) (xval yval : ℝ) : ℝ × ℝ :=
  (gsRun fuel xval yval, gsRun fuel xval yval * gsRun fuel xval yval)

/-- The cut row produced by `QuadHandler::addCut_`: coefficients of `x`
and `y` and the right-hand side of `cx*x + cy*y ≤ rhs`. -/
structure CutCon where
  cx : ℝ
  cy : ℝ
  rhs : ℝ

/-- `QuadHandler::addCut_` (QuadHandler.cpp:501): adds the gradient cut
`2*xl*x - y ≤ xl*xl` only when it is violated by more than `1e-5` and by
the factor `(1 + 1e-4)` over the parabola value `yl`; `none` models "cut
not added". -/
def addCut_ (xl yl xval yval : ℝ) : Option CutCon :=
  if 2 * xl * xval - yval - yl > 1 / 100000 ∧
     2 * xl * xval - yval > yl * (1 + 1 / 10000) then
    some ⟨2 * xl, -1, xl * xl⟩
  else none

/-- The per-term body of `QuadHandler::separate` (QuadHandler.cpp:847) at
primal values `(xval, yval)` of a LinSqr term: the term is considered for
cutting exactly when `xval^2 > (1 + 1e-4)*|yval|` and
`|xval^2 - yval| > 1e-5`; then the gradient cut at the golden-section
point is handed to `addCut_`. -/
def separateSq (fuel : ℕ) (xval yval : ℝ) : Option CutCon :=
  if xval * xval > (1 + 1 / 10000) * |yval| ∧ |xval * xval - yval| > 1 / 100000 then
    addCut_ (findLinPt_ fuel xval yval).1 (findLinPt_ fuel xval yval).2 xval yval
  else none

end Separation

/-- C7: `separate` produces a cut for a square term iff the term is
considered (`x*^2 > (1 + r_tol)*|y*|` and `|x*^2 - y*| > a_tol`) and the
gradient inequality `2*xl*x - y ≤ xl^2` at the golden-section point `xl`
is violated at the solution by more than `1e-5` and by the factor
`(1 + 1e-4)` over the parabola value `xl^2`; the cut added is exactly
that gradient inequality. -/
theorem separate_considers_and_cuts (fuel : ℕ) (xval yval : ℝ) (c : CutCon) :
    separateSq fuel xval yval = some c ↔
      (xval * xval > (1 + 1 / 10000) * |yval| ∧
       |xval * xval - yval| > 1 / 100000 ∧
       2 * (findLinPt_ fuel xval yval).1 * xval - yval -
         (findLinPt_ fuel xval yval).1 * (findLinPt_ fuel xval yval).1 > 1 / 100000 ∧
       2 * (findLinPt_ fuel xval yval).1 * xval - yval >
         (findLinPt_ fuel xval yval).1 * (findLinPt_ fuel xval yval).1 * (1 + 1 / 10000) ∧
       c = ⟨2 * (findLinPt_ fuel xval yval).1, -1,
            (findLinPt_ fuel xval yval).1 * (findLinPt_ fuel xval yval).1⟩) := by
  rw [separateSq]
  have h2 : (findLinPt_ fuel xval yval).2 =
      (findLinPt_ fuel xval yval).1 * (findLinPt_ fuel xval yval).1 := rfl
  by_cases h1 : xval * xval > (1 + 1 / 10000) * |yval| ∧
      |xval * xval - yval| > 1 / 100000
  · rw [if_pos h1, addCut_, h2]
    by_cases h3 : 2 * (findLinPt_ fuel xval yval).1 * xval - yval -
        (findLinPt_ fuel xval yval).1 * (findLinPt_ fuel xval yval).1 > 1 / 100000 ∧
        2 * (findLinPt_ fuel xval yval).1 * xval - yval >
          (findLinPt_ fuel xval yval).1 * (findLinPt_ fuel xval yval).1 * (1 + 1 / 10000)
    · rw [if_pos h3]
      simp only [Option.some.injEq]
      constructor
      · intro hc
        exact ⟨h1.1, h1.2, h3.1, h3.2, hc.symm⟩
      · intro hc
        exact hc.2.2.2.2.symm
    · rw [if_neg h3]
      constructor
      · intro hc
        exact absurd hc (by simp)
      · intro hc
        exact absurd ⟨hc.2.2.1, hc.2.2.2.1⟩ h3
  · rw [if_neg h1]
    constructor
    · intro hc
      exact absurd hc (by simp)
    · intro hc
      exact absurd ⟨hc.1, hc.2.1⟩ h1

/-- C10: every cut `addCut_` adds is globally valid for the square term:
whatever point `xl` the search produced, the added row `2*xl*x - y ≤ xl^2`
is satisfied by every point of the parabola `y = x^2`, since
`xl^2 - 2*xl*x + x^2 = (x - xl)^2 ≥ 0`; separation never cuts off a
feasible point. -/
theorem addCut_valid_on_parabola (xl yl xval yval : ℝ) (c : CutCon)
    (h : addCut_ xl yl xval yval = some c) :
    ∀ x : ℝ, c.cx * x + c.cy * (x * x) ≤ c.rhs := by
  intro x
  rw [addCut_] at h
  split_ifs at h with hc
  · rw [Option.some.injEq] at h
    subst h
    dsimp only
    nlinarith [sq_nonneg (x - xl)]

/-- C10 witness: `addCut_ 1 1 2 0` adds the cut `2x - y ≤ 1`, and that
cut is valid on the whole parabola. -/
theorem addCut_valid_on_parabola_witness :
    addCut_ (1 : ℝ) 1 2 0 = some ⟨2, -1, 1⟩ ∧
    ∀ x : ℝ, (2 : ℝ) * x + (-1) * (x * x) ≤ 1 := by
  have h : addCut_ (1 : ℝ) 1 2 0 = some ⟨2, -1, 1⟩ := by
    rw [addCut_, if_pos (by norm_num)]
    norm_num
  exact ⟨h, fun x => by simpa using addCut_valid_on_parabola 1 1 2 0 ⟨2, -1, 1⟩ h x⟩

end Minotaur
